import Mathlib

/-!
Verification of the lbrxVoice inference-serving layer.

Shallow embedding of the job orchestration code of the repository:
the batch transcription service (whisper_servers/batch), the DIA TTS
REST and WebSocket servers (tts_servers/dia) and the pure MLX decode
loop (tts_servers/dia/pure_mlx_model.py).  Definitions are translated
from the Python source; source files and line numbers are cited in the
doc comments.
-/

namespace LbrxVoice

/-! ### Job status (whisper_servers/batch/transcription.py, TranscriptionJob.status) -/

/-- The four job statuses of TranscriptionJob.status (transcription.py line 24)
and of the tts_jobs records (rest_api.py lines 87, 121, 129). -/
inductive JobStatus
  | pending
  | processing
  | completed
  | failed
  deriving DecidableEq, Repr

/-- TranscriptionJob (transcription.py lines 19 to 35), restricted to the fields
the claims are about.  The transcription result dictionary is abstracted to the
string that json.dump would serialize. -/
structure TranscriptionJob where
  job_id : String
  output_file : String
  status : JobStatus
  result : Option String
  error : Option String
  deriving DecidableEq, Repr

/-- Outcome of the mlx_whisper.transcribe call made inside _process_job
(transcription.py lines 138 to 147): either a result record or a raised
exception message. -/
inductive TranscribeOutcome
  | success (result : String)
  | failure (msg : String)
  deriving DecidableEq, Repr

/-- The on-disk results directory, as a list of (path, contents) records. -/
abbrev FileSystem := List (String × String)

/-- The result-persistence statement of TranscriptionService._process_job
(transcription.py lines 155 to 160):

  async with asyncio.to_thread(open, job.output_file, "w") as f: ...

asyncio.to_thread returns a coroutine object, and the asynchronous
context manager protocol looks up an aenter method on its type, which a
coroutine does not define; CPython therefore raises TypeError before any
file is opened, every time this statement runs.  The embedding returns
that unconditional error and leaves the filesystem untouched. -/
def writeResultFile (fs : FileSystem) (path contents : String) : Except String FileSystem :=
  Except.error "TypeError: coroutine object does not support the asynchronous context manager protocol"

/-- TranscriptionService._process_job (transcription.py lines 113 to 168),
after the gate slot is acquired.  Returns the final job record, the final
filesystem, and the sequence of status values assigned to job.status, in
program order.  On a successful transcription the source sets
job.status = "completed" (line 151), then attempts the result write, whose
unconditional TypeError is caught by the except clause (lines 164 to 168),
which sets job.status = "failed". -/
def process_job (job : TranscriptionJob) (outcome : TranscribeOutcome) (fs : FileSystem) :
    TranscriptionJob × FileSystem × List JobStatus :=
  let job1 := { job with status := JobStatus.processing }
  match outcome with
  | TranscribeOutcome.failure msg =>
      ({ job1 with status := JobStatus.failed, error := some msg }, fs,
        [JobStatus.processing, JobStatus.failed])
  | TranscribeOutcome.success r =>
      let job2 := { job1 with result := some r, status := JobStatus.completed }
      match writeResultFile fs job.output_file r with
      | Except.ok fs2 => (job2, fs2, [JobStatus.processing, JobStatus.completed])
      | Except.error e =>
          ({ job2 with status := JobStatus.failed, error := some e }, fs,
            [JobStatus.processing, JobStatus.completed, JobStatus.failed])

/-- The full sequence of status values a job takes on, from its creation with
status "pending" in create_job (transcription.py line 98) through _process_job. -/
def jobLifecycleTrace (job : TranscriptionJob) (outcome : TranscribeOutcome) (fs : FileSystem) :
    List JobStatus :=
  JobStatus.pending :: (process_job job outcome fs).2.2

/-- A concrete freshly created transcription job, as built by create_job
(transcription.py lines 91 to 104). -/
def sampleJob : TranscriptionJob :=
  { job_id := "job-1", output_file := "results/job-1.json", status := JobStatus.pending,
    result := none, error := none }

/-! ### Transcription submit path (whisper_servers/batch/api.py, common/utils.py, common/config.py) -/

/-- ServerSettings.SUPPORTED_FORMATS default (common/config.py lines 25 to 27). -/
def SUPPORTED_FORMATS : List String :=
  ["mp3", "mp4", "mpeg", "mpga", "m4a", "wav", "webm"]

/-- ServerSettings.MAX_AUDIO_SIZE_MB default (common/config.py line 24).  This
setting is defined in the configuration and read nowhere else in the code. -/
def MAX_AUDIO_SIZE_MB : Nat := 100

/-- The extension part of os.path.splitext: the suffix starting at the last dot,
unless every character before that dot is itself a dot (then the extension is
empty).  Path separators inside the name are not modeled. -/
def splitext_ext (filename : String) : String :=
  let cs := filename.toList
  match ((List.range cs.length).filter (fun i => cs.get? i == some '.')).getLast? with
  | none => ""
  | some i =>
      if (List.range i).all (fun j => cs.get? j == some '.') then ""
      else String.mk (cs.drop i)

/-- get_file_extension (common/utils.py lines 44 to 57): the splitext extension,
or ".bin" when there is none. -/
def get_file_extension (filename : String) : String :=
  let ext := splitext_ext filename
  if ext = "" then ".bin" else ext

/-- is_audio_file (common/utils.py lines 94 to 105): lower-case the extension,
strip leading dots, and test membership in SUPPORTED_FORMATS. -/
def is_audio_file (filename : String) : Bool :=
  SUPPORTED_FORMATS.contains
    (String.mk (((get_file_extension filename).toList.map Char.toLower).dropWhile (fun c => c == '.')))

/-- An uploaded file as seen by the submit endpoint: its client-supplied
filename and its size in megabytes. -/
structure UploadFileModel where
  filename : String
  sizeMB : Nat
  deriving DecidableEq, Repr

/-- The rejection produced by the submit-path validation of
create_transcription (api.py lines 82 to 86). -/
inductive SubmitError
  | unsupportedFormat (filename : String)
  deriving DecidableEq, Repr

/-- The submit path of create_transcription (api.py lines 65 to 99) through job
creation: the only validation performed is the filename-extension check of
lines 82 to 86; the upload is then saved and create_job (transcription.py
lines 70 to 111) registers a new pending job in the service registry.  No
comparison of the upload size against MAX_AUDIO_SIZE_MB occurs anywhere on
this path.  `jobId` stands for the uuid generated by generate_unique_id. -/
def create_transcription (file : UploadFileModel) (jobs : List TranscriptionJob) (jobId : String) :
    Except SubmitError (TranscriptionJob × List TranscriptionJob) :=
  if is_audio_file file.filename then
    let job : TranscriptionJob :=
      { job_id := jobId, output_file := jobId ++ ".json", status := JobStatus.pending,
        result := none, error := none }
    Except.ok (job, jobs ++ [job])
  else
    Except.error (SubmitError.unsupportedFormat file.filename)

/-! ### DIA TTS REST API (tts_servers/dia/rest_api.py) -/

/-- TTSConfig.max_text_length default (tts_servers/common/config.py line 25). -/
def max_text_length : Nat := 1000

/-- A TTSRequest (tts_servers/common/models.py lines 24 to 34), restricted to
the fields the claims are about. -/
structure TTSRequest where
  text : String
  request_id : String
  deriving DecidableEq, Repr

/-- One record of the tts_jobs dictionary (rest_api.py lines 87, 120 to 125
and 128 to 132). -/
inductive TTSJobState
  | processingState (progress : Nat)
  | completedState (output_path : String)
  | failedState (error : String)
  deriving DecidableEq, Repr

/-- The tts_jobs dictionary (rest_api.py line 44).  Assignment is modeled by
consing, lookup by first match, so later assignments shadow earlier ones. -/
abbrev TTSRegistry := List (String × TTSJobState)

/-- HTTP error responses raised by the DIA REST endpoints. -/
inductive HTTPFailure
  | badRequest (detail : String)
  | serviceUnavailable (detail : String)
  | notFound (detail : String)
  | internalError (detail : String)
  deriving DecidableEq, Repr

/-- The 202 body returned by the async submit endpoint (rest_api.py
lines 156 to 164). -/
structure SubmitAccepted where
  request_id : String
  status : String
  deriving DecidableEq, Repr

/-- synthesize_text (rest_api.py lines 135 to 164): validate the text length
against max_text_length, require the model to be initialized, schedule
process_tts_job as a background task (which FastAPI runs only after the
response has been sent) and return 202 with the request id.  The returned
triple is (response body, job registry after the call, scheduled tasks);
the registry is not touched on this path and no model generation runs. -/
def synthesize_text (request : TTSRequest) (modelLoaded : Bool) (jobs : TTSRegistry) :
    Except HTTPFailure (SubmitAccepted × TTSRegistry × List TTSRequest) :=
  if max_text_length < request.text.length then
    Except.error (HTTPFailure.badRequest "Text too long")
  else if !modelLoaded then
    Except.error (HTTPFailure.serviceUnavailable "Model not initialized")
  else
    Except.ok ({ request_id := request.request_id, status := "processing" }, jobs, [request])

/-- Outcome of the generation performed inside process_tts_job (rest_api.py
lines 89 to 106): generate, codes_to_audio and save_audio together either
produce an output file or raise. -/
inductive GenOutcome
  | genOk (output_path : String)
  | genRaised (err : String)
  deriving DecidableEq, Repr

/-- The first statement of process_tts_job (rest_api.py line 87): the job
record is created in tts_jobs with status "processing".  This is the earliest
moment at which the registry contains the request id. -/
def process_tts_job_start (request : TTSRequest) (jobs : TTSRegistry) : TTSRegistry :=
  (request.request_id, TTSJobState.processingState 0) :: jobs

/-- process_tts_job (rest_api.py lines 79 to 132): register the job as
processing, then run generation; on success store a completed record, on an
exception store a failed record. -/
def process_tts_job (request : TTSRequest) (outcome : GenOutcome) (jobs : TTSRegistry) :
    TTSRegistry :=
  let jobs1 := process_tts_job_start request jobs
  match outcome with
  | GenOutcome.genOk p => (request.request_id, TTSJobState.completedState p) :: jobs1
  | GenOutcome.genRaised e => (request.request_id, TTSJobState.failedState e) :: jobs1

/-- The reply of the status endpoint for a job that was found. -/
inductive StatusReply
  | completedReply (output_path : String)
  | processingReply (progress : Nat)
  deriving DecidableEq, Repr

/-- get_job_status (rest_api.py lines 232 to 256): 404 for an unknown id,
the stored response for a completed job, 500 carrying the stored error for a
failed job, and status plus progress otherwise. -/
def get_job_status (request_id : String) (jobs : TTSRegistry) : Except HTTPFailure StatusReply :=
  match jobs.lookup request_id with
  | none => Except.error (HTTPFailure.notFound "Job not found")
  | some (TTSJobState.completedState p) => Except.ok (StatusReply.completedReply p)
  | some (TTSJobState.failedState e) => Except.error (HTTPFailure.internalError e)
  | some (TTSJobState.processingState prog) => Except.ok (StatusReply.processingReply prog)

/-- A concrete valid request, within max_text_length. -/
def sampleRequest : TTSRequest := { text := "Hello", request_id := "rid-1" }

/-! ### Pure MLX synthesis decode loop (tts_servers/dia/pure_mlx_model.py) -/

/-- The decode loop of DiaMLX.generate (pure_mlx_model.py lines 402 to 443).
At each step the model forward pass and the per-codebook sampling produce one
token per codebook; the loop appends them to audio_codes and breaks when any
codebook emitted the end-of-audio token (lines 436 to 442, the check runs
after the append).  The composite of forward pass and sampling is abstracted
as `next`, because the control flow of the loop depends only on the emitted
codes.  The fuel argument is the remaining iterations of
`for step in range(max_length)`. -/
def generateLoopAux (next : Nat → List Nat) (eos : Nat) : Nat → Nat → List (List Nat)
  | _, 0 => []
  | step, fuel + 1 =>
      if eos ∈ next step then [next step]
      else next step :: generateLoopAux next eos (step + 1) fuel

/-- The token matrix produced by the generate decode loop: one entry (a list of
per-codebook tokens) per executed generation step. -/
def generateCodes (next : Nat → List Nat) (eos maxLength : Nat) : List (List Nat) :=
  generateLoopAux next eos 0 maxLength

/-- A step function whose only step emits the end-of-audio token 5. -/
def eosAtEveryStep : Nat → List Nat := fun _ => [5]

/-- The operations of the per-codebook token-selection pipeline of
DiaMLX.generate. -/
inductive SampleOp
  | divByTemperature (t : ℚ)
  | topkFilter (k : Nat)
  | softmaxOp
  | logOp
  | categoricalSample
  | argmaxSelect
  deriving DecidableEq, Repr

/-- The per-codebook token-selection pipeline executed at every step of
DiaMLX.generate (pure_mlx_model.py lines 415 to 434), translated operation for
operation: the logits of the last timestep are divided by the temperature
argument with no case split on its value (line 418, a division by zero when
temperature is 0), top-k filtered (lines 426 to 429), normalised with softmax
(line 432), and passed through mx.log into mx.random.categorical (line 433),
which draws from the process-global PRNG. -/
def generateSelectionPipeline (temperature : ℚ) (top_k : Nat) : List SampleOp :=
  [SampleOp.divByTemperature temperature, SampleOp.topkFilter top_k,
    SampleOp.softmaxOp, SampleOp.logOp, SampleOp.categoricalSample]

/-- The selection procedure the specification prescribes at temperature zero:
greedy argmax over the raw logits, with no sampling. -/
def greedySelectionPipeline : List SampleOp := [SampleOp.argmaxSelect]

/-- How many draws from the process-global PRNG an operation consumes:
mx.random.categorical consumes one, every other operation none. -/
def drawsConsumed : SampleOp → Nat
  | SampleOp.categoricalSample => 1
  | _ => 0

/-- Total PRNG draws one execution of a selection pipeline consumes. -/
def pipelineDraws (ops : List SampleOp) : Nat := (ops.map drawsConsumed).sum

/-- DiaMLX.codes_to_audio (pure_mlx_model.py lines 449 to 455; the variant in
mlx_model.py lines 246 to 254 computes the same result): duration = n / 86,
samples = int(duration * sample_rate), return np.zeros(samples).  Floating
point is modeled with exact rationals and int() as the floor.  The Except
result type records that the function has no failure path at all: every
input maps to ok. -/
def codes_to_audio (numCodes sample_rate : Nat) : Except String (List ℚ) :=
  Except.ok (List.replicate (Int.toNat ⌊(numCodes : ℚ) / 86 * sample_rate⌋) 0)

/-! ### DIA TTS WebSocket streaming (tts_servers/dia/websocket_server.py) -/

/-- chunk_size (websocket_server.py line 97): int(config.sample_rate * 0.5),
which for a natural sample rate is the floor, sample_rate / 2. -/
def chunk_size (sample_rate : Nat) : Nat := sample_rate / 2

/-- total_chunks (websocket_server.py line 98):
len(audio_data) // chunk_size + (1 if len(audio_data) % chunk_size else 0). -/
def totalChunks (len c : Nat) : Nat := len / c + (if len % c ≠ 0 then 1 else 0)

/-- The slice audio_data[start_idx:end_idx] of chunk i (websocket_server.py
lines 101 to 103), with start_idx = i * chunk_size and
end_idx = min((i + 1) * chunk_size, len(audio_data)). -/
def chunkPayload {α : Type} (audio : List α) (c i : Nat) : List α :=
  (audio.drop (i * c)).take c

/-- The messages a stream session sends (websocket_server.py lines 112 to 135
and the send_error call of line 138).  The chunk payload carries the raw
sample slice; the WAV plus base64 transport encoding of lines 106 to 109 is a
bijective serialization and is abstracted away. -/
inductive StreamMsg (α : Type)
  | chunk (chunk_index : Nat) (payload : List α) (is_final : Bool)
  | completion (total_chunks : Nat)
  | errorMsg (message : String)
  deriving DecidableEq, Repr

/-- The chunk messages of the success path (websocket_server.py lines 100 to
121): chunk i carries chunk_index i (the counter increments once per send) and
is_final = (i == total_chunks - 1). -/
def chunkMsgs {α : Type} (audio : List α) (c : Nat) : List (StreamMsg α) :=
  (List.range (totalChunks audio.length c)).map fun i =>
    StreamMsg.chunk i (chunkPayload audio c i) (decide (i = totalChunks audio.length c - 1))

/-- process_tts_stream (websocket_server.py lines 79 to 138): on a successful
generation the session sends every chunk followed by one completion message
carrying the chunk count; when generation raises, the except clause sends a
single terminal error message instead. -/
def process_tts_stream {α : Type} (genResult : Except String (List α)) (c : Nat) :
    List (StreamMsg α) :=
  match genResult with
  | Except.error e => [StreamMsg.errorMsg e]
  | Except.ok audio => chunkMsgs audio c ++ [StreamMsg.completion (totalChunks audio.length c)]

/-! ### Concurrency gate (whisper_servers/batch/transcription.py, asyncio.Semaphore)

TranscriptionService wraps every job in `async with self._semaphore`
(transcription.py line 121) where the semaphore is
asyncio.Semaphore(settings.MAX_CONCURRENT_JOBS) (line 42).  The claim
concerns two jobs and a gate of capacity one, so the model fixes two job
identities (Bool) and an operational small-step semantics of the semaphore:
`permits` is the semaphore value and `queue` its FIFO deque of waiters; a
release hands the permit to the head waiter, reflecting the FIFO wakeup of
asyncio.Semaphore.  The body of _process_job, in program order, first sets
job.status = "processing" (line 124) and, on every path through the
try/except, assigns a terminal status (lines 151 and 166) before the
semaphore is released by the exit of the async-with block. -/

namespace Gate

/-- Program counter of one job running _process_job. -/
inductive PC
  | toAcquire
  | waiting
  | toSetProcessing
  | toSetTerminal
  | toRelease
  | finished
  deriving DecidableEq, Repr

/-- Observable status-assignment events, appended to a log whose index order
is time order: procStart records the assignment of "processing", terminal the
assignment of the terminal status ("completed" or "failed"). -/
inductive Event
  | procStart (j : Bool)
  | terminal (j : Bool)
  deriving DecidableEq, Repr

/-- State of the two-job system: the semaphore permit count, its FIFO waiter
queue, each job program counter, and the event log. -/
structure SysState where
  permits : Nat
  queue : List Bool
  pc : Bool → PC
  log : List Event

/-- Pointwise update of one job program counter. -/
def setPC (pc : Bool → PC) (j : Bool) (v : PC) : Bool → PC :=
  fun k => if k = j then v else pc k

/-- One scheduler step of the system.  acquireFree and acquireBlock are the
two branches of asyncio.Semaphore.acquire (take the permit when one is free
and nobody queues ahead, otherwise join the tail of the FIFO waiter deque);
setProcessingStep and setTerminalStep are the status assignments of
_process_job; the release steps model Semaphore.release at the exit of the
async-with block, handing the permit to the head waiter when one exists. -/
inductive Step : SysState → SysState → Prop
  | acquireFree (s : SysState) (j : Bool)
      (hpc : s.pc j = PC.toAcquire) (hperm : 0 < s.permits) (hq : s.queue = []) :
      Step s { s with permits := s.permits - 1, pc := setPC s.pc j PC.toSetProcessing }
  | acquireBlock (s : SysState) (j : Bool)
      (hpc : s.pc j = PC.toAcquire) (hblock : s.permits = 0 ∨ s.queue ≠ []) :
      Step s { s with queue := s.queue ++ [j], pc := setPC s.pc j PC.waiting }
  | setProcessingStep (s : SysState) (j : Bool)
      (hpc : s.pc j = PC.toSetProcessing) :
      Step s { s with pc := setPC s.pc j PC.toSetTerminal, log := s.log ++ [Event.procStart j] }
  | setTerminalStep (s : SysState) (j : Bool)
      (hpc : s.pc j = PC.toSetTerminal) :
      Step s { s with pc := setPC s.pc j PC.toRelease, log := s.log ++ [Event.terminal j] }
  | releaseNoWaiter (s : SysState) (j : Bool)
      (hpc : s.pc j = PC.toRelease) (hq : s.queue = []) :
      Step s { s with permits := s.permits + 1, pc := setPC s.pc j PC.finished }
  | releaseWake (s : SysState) (j w : Bool) (rest : List Bool)
      (hpc : s.pc j = PC.toRelease) (hq : s.queue = w :: rest) :
      Step s { s with queue := rest, pc := setPC (setPC s.pc j PC.finished) w PC.toSetProcessing }

/-- Initial state: gate of capacity K = 1, both jobs submitted and about to
attempt acquisition, empty log. -/
def gateInit : SysState :=
  { permits := 1, queue := [], pc := fun _ => PC.toAcquire, log := [] }

/-- States reachable from the two-job initial state. -/
def Reachable (s : SysState) : Prop := Relation.ReflTransGen Step gateInit s

/-- Whether job j currently holds the gate permit: it is past a successful
acquire and has not yet released. -/
def holdsGate (s : SysState) (j : Bool) : Bool :=
  decide (s.pc j = PC.toSetProcessing) || decide (s.pc j = PC.toSetTerminal) ||
    decide (s.pc j = PC.toRelease)

/-- Number of jobs holding the permit. -/
def holderCount (s : SysState) : Nat :=
  (if holdsGate s false then 1 else 0) + (if holdsGate s true then 1 else 0)

/-- Log well-formedness scanner: starting from an optional open processing
section, consume the log; a procStart opens a section (only when none is
open), the matching terminal closes it.  Returns the open section after the
log, or none when the log is ill-formed. -/
def scanLog : Option Bool → List Event → Option (Option Bool)
  | st, [] => some st
  | none, Event.procStart j :: es => scanLog (some j) es
  | some _, Event.procStart _ :: _ => none
  | some a, Event.terminal j :: es => if j = a then scanLog none es else none
  | none, Event.terminal _ :: _ => none

/-- The job whose processing section is currently open: it has logged
procStart (pc past toSetProcessing) but not yet terminal (pc toSetTerminal). -/
def openSection (s : SysState) : Option Bool :=
  if s.pc false = PC.toSetTerminal then some false
  else if s.pc true = PC.toSetTerminal then some true
  else none

/-- Inductive invariant of the two-job gate system. -/
structure Inv (s : SysState) : Prop where
  count : holderCount s + s.permits = 1
  scan : scanLog none s.log = some (openSection s)
  queue_wait : ∀ j, j ∈ s.queue → s.pc j = PC.waiting
  queue_nodup : s.queue.Nodup

end Gate

/-! ## Theorems -/

/-- C1: the claim states that status transitions form a subsequence of
pending, processing, then one terminal status, and that a job never moves
from completed to failed.  The transcription service violates this: on a
successful transcription _process_job assigns "completed"
(transcription.py line 151) and then the result-write statement raises its
unconditional TypeError, so the except clause assigns "failed" (line 166).
The lifecycle trace of such a job is pending, processing, completed,
failed: it contains a completed-to-failed transition. -/
theorem completed_job_transitions_to_failed :
    jobLifecycleTrace sampleJob (TranscribeOutcome.success "hello") [] =
      [JobStatus.pending, JobStatus.processing, JobStatus.completed, JobStatus.failed] ∧
    ∃ i j, i < j ∧
      (jobLifecycleTrace sampleJob (TranscribeOutcome.success "hello") []).get? i =
        some JobStatus.completed ∧
      (jobLifecycleTrace sampleJob (TranscribeOutcome.success "hello") []).get? j =
        some JobStatus.failed :=
  ⟨rfl, 2, 3, by omega, rfl, rfl⟩

/-- C2: the claim states that a transcription job reaching completed has its
result written to the results directory and stays completed.  In the code the
job does reach completed, but the result write never succeeds (its async-with
statement raises TypeError on every execution), no record is ever added to
the filesystem under any outcome, and the job ends failed. -/
theorem completed_result_never_persisted :
    (∀ job outcome fs, (process_job job outcome fs).2.1 = fs) ∧
    JobStatus.completed ∈ jobLifecycleTrace sampleJob (TranscribeOutcome.success "hello") [] ∧
    (process_job sampleJob (TranscribeOutcome.success "hello") []).2.1 = [] ∧
    (process_job sampleJob (TranscribeOutcome.success "hello") []).1.status = JobStatus.failed := by
  refine ⟨fun job outcome fs => ?_, by decide, rfl, rfl⟩
  cases outcome <;> rfl

/-- C3 counterexample: the claim states that from the moment the async submit
call returns, a job record for the request id exists in the registry and a
poll does not return NotFound.  In the code, synthesize_text only schedules
process_tts_job as a FastAPI background task and returns with the registry
untouched; the record is first created inside the background task.  A poll of
the returned id against the registry as the submit call left it yields the
404 NotFound error. -/
theorem submit_then_immediate_poll_not_found :
    synthesize_text sampleRequest true [] =
      Except.ok ({ request_id := "rid-1", status := "processing" }, [], [sampleRequest]) ∧
    get_job_status sampleRequest.request_id [] =
      Except.error (HTTPFailure.notFound "Job not found") :=
  ⟨rfl, rfl⟩

/-- C3 amended: for every valid asynchronous synthesis submission the submit
endpoint returns the request id immediately, without running model generation
and leaving the registry unchanged; the job record is created only when the
scheduled background task starts, and from that moment a status poll of the
id does not return NotFound. -/
theorem submit_returns_id_poll_found_after_start (request : TTSRequest) (jobs : TTSRegistry)
    (hlen : request.text.length ≤ max_text_length) :
    synthesize_text request true jobs =
      Except.ok ({ request_id := request.request_id, status := "processing" }, jobs, [request]) ∧
    get_job_status request.request_id (process_tts_job_start request jobs) ≠
      Except.error (HTTPFailure.notFound "Job not found") ∧
    ∀ outcome,
      get_job_status request.request_id (process_tts_job request outcome jobs) ≠
        Except.error (HTTPFailure.notFound "Job not found") := by
  refine ⟨?_, ?_, ?_⟩
  · rw [synthesize_text, if_neg (Nat.not_lt.2 hlen)]
    rfl
  · simp [get_job_status, process_tts_job_start, List.lookup]
  · intro outcome
    cases outcome <;> simp [get_job_status, process_tts_job, process_tts_job_start, List.lookup]

/-- Witness for the C3 amended theorem at the concrete request sampleRequest
and an empty registry. -/
theorem submit_returns_id_poll_found_after_start_witness :
    sampleRequest.text.length ≤ max_text_length ∧
    (synthesize_text sampleRequest true [] =
      Except.ok ({ request_id := sampleRequest.request_id, status := "processing" }, [],
        [sampleRequest]) ∧
    get_job_status sampleRequest.request_id (process_tts_job_start sampleRequest []) ≠
      Except.error (HTTPFailure.notFound "Job not found") ∧
    ∀ outcome,
      get_job_status sampleRequest.request_id (process_tts_job sampleRequest outcome []) ≠
        Except.error (HTTPFailure.notFound "Job not found")) :=
  ⟨by decide, submit_returns_id_poll_found_after_start sampleRequest [] (by decide)⟩

/-- C4: the claim states that an oversized transcription upload fails with a
ValidationError and creates no job.  The submit path of create_transcription
validates only the filename extension; the upload size is never compared with
MAX_AUDIO_SIZE_MB (the setting is read nowhere outside the configuration), so
any oversized upload with a supported extension is accepted and a new job is
appended to the registry. -/
theorem oversized_upload_creates_job (file : UploadFileModel) (jobs : List TranscriptionJob)
    (jobId : String) (hsize : MAX_AUDIO_SIZE_MB < file.sizeMB)
    (hfmt : is_audio_file file.filename = true) :
    ∃ job, create_transcription file jobs jobId = Except.ok (job, jobs ++ [job]) := by
  rw [create_transcription, if_pos hfmt]
  exact ⟨_, rfl⟩

/-- Witness for the C4 theorem: a 101 MB upload named big.wav, above the
100 MB limit, is accepted and grows the registry from zero to one job. -/
theorem oversized_upload_creates_job_witness :
    MAX_AUDIO_SIZE_MB < 101 ∧
    ∃ job, create_transcription { filename := "big.wav", sizeMB := 101 } [] "job-9" =
      Except.ok (job, [] ++ [job]) :=
  ⟨by decide, oversized_upload_creates_job { filename := "big.wav", sizeMB := 101 } [] "job-9"
    (by decide) (by decide)⟩

/-- C5: the claim states that at temperature 0 the synthesis decode loop
degenerates to greedy argmax selection with no random sampling, making two
runs byte-identical.  The per-step selection pipeline of DiaMLX.generate has
no case split on the temperature: at temperature 0 it still divides the
logits by the temperature (a division by zero) and still selects every token
with mx.random.categorical, consuming one draw of the process-global PRNG
per codebook per step; no argmax selection occurs anywhere in the loop. -/
theorem zero_temperature_pipeline_still_samples :
    pipelineDraws (generateSelectionPipeline 0 50) = 1 ∧
    SampleOp.categoricalSample ∈ generateSelectionPipeline 0 50 ∧
    SampleOp.argmaxSelect ∉ generateSelectionPipeline 0 50 ∧
    SampleOp.divByTemperature 0 ∈ generateSelectionPipeline 0 50 ∧
    generateSelectionPipeline 0 50 ≠ greedySelectionPipeline ∧
    pipelineDraws greedySelectionPipeline = 0 := by
  refine ⟨rfl, ?_, ?_, ?_, ?_, rfl⟩ <;> decide

/-- C8: the claim states that without a functioning codec decoder the
Finalize step fails with an InferenceError instead of returning silent audio.
Both codes_to_audio implementations have no failure path at all: every input
produces an ok result whose samples are all zero, exactly the silent audio a
caller could mistake for success; at 86 codes and a 44100 Hz sample rate the
result is one second of silence. -/
theorem codes_to_audio_silent_success :
    (∀ n sr, ∃ m, codes_to_audio n sr = Except.ok (List.replicate m 0)) ∧
    codes_to_audio 86 44100 = Except.ok (List.replicate 44100 0) := by
  constructor
  · exact fun n sr => ⟨_, rfl⟩
  · have h : Int.toNat ⌊((86 : Nat) : ℚ) / 86 * ((44100 : Nat) : ℚ)⌋ = 44100 := by
      norm_num
      rfl
    rw [codes_to_audio, h]

/-- The decode loop never performs more steps than its remaining fuel. -/
theorem generateLoopAux_length_le (next : Nat → List Nat) (eos : Nat) (start fuel : Nat) :
    (generateLoopAux next eos start fuel).length ≤ fuel := by
  induction fuel generalizing start with
  | zero => simp [generateLoopAux]
  | succ n ih =>
      rw [generateLoopAux]
      split
      · simp
      · simpa [List.length_cons] using Nat.succ_le_succ (ih (start + 1))

/-- The decode loop performs fewer steps than its fuel exactly when the
end-of-audio token is emitted at a step whose successor is still below the
fuel bound. -/
theorem generateLoopAux_length_lt_iff (next : Nat → List Nat) (eos : Nat) (start fuel : Nat) :
    (generateLoopAux next eos start fuel).length < fuel ↔
      ∃ i, i + 1 < fuel ∧ eos ∈ next (start + i) := by
  induction fuel generalizing start with
  | zero => simp [generateLoopAux]
  | succ n ih =>
      rw [generateLoopAux]
      by_cases h : eos ∈ next start
      · rw [if_pos h]
        constructor
        · intro hlt
          refine ⟨0, ?_, by simpa using h⟩
          simp only [List.length_singleton] at hlt
          omega
        · intro hex
          obtain ⟨i, hi, _⟩ := hex
          simp only [List.length_singleton]
          omega
      · rw [if_neg h]
        constructor
        · intro hlt
          have hlt2 : (generateLoopAux next eos (start + 1) n).length < n := by
            simp only [List.length_cons] at hlt
            omega
          obtain ⟨i, hi, hm⟩ := (ih (start + 1)).1 hlt2
          refine ⟨i + 1, by omega, ?_⟩
          have : start + (i + 1) = start + 1 + i := by omega
          rw [this]
          exact hm
        · intro hex
          obtain ⟨i, hi, hm⟩ := hex
          cases i with
          | zero => exact absurd (by simpa using hm) h
          | succ k =>
              have hm2 : eos ∈ next (start + 1 + k) := by
                have : start + 1 + k = start + (k + 1) := by omega
                rw [this]
                exact hm
              have := (ih (start + 1)).2 ⟨k, by omega, hm2⟩
              simp only [List.length_cons]
              omega

/-- C6 counterexample: with max_length 1 and a step function whose step 0
emits the end-of-audio token 5, the loop performs exactly max_length steps
(the break fires only after the final append), so it does not stop before
reaching max_length although a codebook emitted the end-of-audio token at an
executed step; the biconditional of the claim fails as stated. -/
theorem eos_at_final_step_no_early_stop :
    ¬ (((generateCodes eosAtEveryStep 5 1).length < 1) ↔
        ∃ i < (generateCodes eosAtEveryStep 5 1).length, 5 ∈ eosAtEveryStep i) := by
  decide

/-- C6 amended: the decode loop performs at most max_length generation steps
and the returned per-step token list has length at most max_length (each step
contributes exactly one entry); the loop stops before performing max_length
steps exactly when some codebook emits the end-of-audio token at a step
earlier than the final allowed one (an end-of-audio token first emitted at
step max_length - 1 is appended, but the loop has then already performed
max_length steps). -/
theorem generate_loop_bounds_and_stop (next : Nat → List Nat) (eos maxLength : Nat) :
    (generateCodes next eos maxLength).length ≤ maxLength ∧
    ((generateCodes next eos maxLength).length < maxLength ↔
      ∃ i, i + 1 < maxLength ∧ eos ∈ next i) := by
  refine ⟨generateLoopAux_length_le next eos 0 maxLength, ?_⟩
  simpa using generateLoopAux_length_lt_iff next eos 0 maxLength

/-- The chunk count is positive as soon as the audio buffer is nonempty. -/
theorem totalChunks_pos {len c : Nat} (hc : 0 < c) (hlen : 0 < len) :
    0 < totalChunks len c := by
  unfold totalChunks
  split
  · exact Nat.lt_of_lt_of_le (Nat.succ_pos 0) (Nat.le_add_left 1 (len / c))
  · next hmod =>
      have h0 : len % c = 0 := not_not.mp hmod
      have hle : c ≤ len := Nat.le_of_dvd hlen (Nat.dvd_of_mod_eq_zero h0)
      have hpos := Nat.div_pos hle hc
      exact Nat.lt_of_lt_of_le hpos (Nat.le_add_right _ 0)

/-- C7: on a successful generation the stream session emits, in order, chunk
messages whose chunk_index runs 0, 1, ... up to the chunk count, of which
exactly the last carries is_final = true, followed by exactly one completion
message; when generation raises, the session emits a single terminal error
message instead. -/
theorem stream_success_protocol {α : Type} (audio : List α) (c : Nat)
    (hc : 0 < c) (haudio : audio ≠ []) :
    0 < totalChunks audio.length c ∧
    (process_tts_stream (Except.ok audio) c).length = totalChunks audio.length c + 1 ∧
    (∀ i, i < totalChunks audio.length c →
      (process_tts_stream (Except.ok audio) c).get? i =
        some (StreamMsg.chunk i (chunkPayload audio c i)
          (decide (i = totalChunks audio.length c - 1)))) ∧
    (process_tts_stream (Except.ok audio) c).get? (totalChunks audio.length c) =
      some (StreamMsg.completion (totalChunks audio.length c)) ∧
    (∀ e, process_tts_stream (Except.error e : Except String (List α)) c =
      [StreamMsg.errorMsg e]) := by
  have hlen : 0 < audio.length := List.length_pos.2 haudio
  have hpos := totalChunks_pos hc hlen
  have hmsgs : (chunkMsgs audio c).length = totalChunks audio.length c := by
    simp [chunkMsgs]
  refine ⟨hpos, ?_, ?_, ?_, fun e => rfl⟩
  · simp [process_tts_stream, chunkMsgs]
  · intro i hi
    have hi2 : i < (chunkMsgs audio c).length := by rw [hmsgs]; exact hi
    rw [process_tts_stream]
    rw [List.get?_append hi2]
    rw [chunkMsgs, List.get?_map, List.get?_range hi]
    rfl
  · rw [process_tts_stream]
    rw [List.get?_append_right (by rw [hmsgs])]
    rw [hmsgs, Nat.sub_self]
    rfl

/-- Witness for the C7 theorem at the concrete buffer [1, 2, 3] with chunk
size 2: two chunks, sequence numbers 0 and 1, is_final only on the second,
then one completion message. -/
theorem stream_success_protocol_witness :
    (0 : Nat) < 2 ∧ ([1, 2, 3] : List Int) ≠ [] ∧
    (process_tts_stream (Except.ok ([1, 2, 3] : List Int)) 2).get? 0 =
      some (StreamMsg.chunk 0 [1, 2] false) ∧
    (process_tts_stream (Except.ok ([1, 2, 3] : List Int)) 2).get? 1 =
      some (StreamMsg.chunk 1 [3] true) ∧
    (process_tts_stream (Except.ok ([1, 2, 3] : List Int)) 2).get? 2 =
      some (StreamMsg.completion 2) := by
  have h := stream_success_protocol ([1, 2, 3] : List Int) 2 (by decide) (by decide)
  have htc : totalChunks ([1, 2, 3] : List Int).length 2 = 2 := by decide
  have h0 := h.2.2.1 0 (by decide)
  have h1 := h.2.2.1 1 (by decide)
  have h2 := h.2.2.2.1
  rw [htc] at h0 h1 h2
  refine ⟨by decide, by decide, ?_, ?_, h2⟩
  · rw [h0]
    rfl
  · rw [h1]
    rfl

/-- The chunk count formula of the session equals the ceiling of the length
divided by the chunk size. -/
theorem totalChunks_eq_ceil (len c : Nat) (hc : 0 < c) :
    totalChunks len c = (len + c - 1) / c := by
  unfold totalChunks
  have hmod := Nat.div_add_mod len c
  by_cases h : len % c = 0
  · rw [if_neg (show ¬ len % c ≠ 0 from not_not.mpr h)]
    have hq : len = c * (len / c) := by omega
    have hrw : len + c - 1 = c * (len / c) + (c - 1) := by omega
    have hlt : (c - 1) / c = 0 := Nat.div_eq_of_lt (by omega)
    rw [hrw, Nat.mul_add_div hc, hlt]
  · rw [if_pos h]
    have hrw : len + c - 1 = c * (len / c) + (len % c + c - 1) := by omega
    have hmodlt : len % c < c := Nat.mod_lt _ hc
    have hone : (len % c + c - 1) / c = 1 := by
      apply Nat.div_eq_of_lt_le
      · omega
      · omega
    rw [hrw, Nat.mul_add_div hc, hone]

/-- Every chunk before the last carries exactly chunk_size samples. -/
theorem chunkPayload_middle_length {α : Type} (audio : List α) (c i : Nat) (hc : 0 < c)
    (hi : i + 1 < totalChunks audio.length c) :
    (chunkPayload audio c i).length = c := by
  have hq : i + 1 ≤ audio.length / c := by
    unfold totalChunks at hi
    split at hi <;> omega
  have hmul : (i + 1) * c ≤ audio.length := (Nat.le_div_iff_mul_le hc).1 hq
  have hmul2 : i * c + c ≤ audio.length := by
    rw [Nat.add_mul, Nat.one_mul] at hmul
    exact hmul
  unfold chunkPayload
  rw [List.length_take, List.length_drop]
  have hmin : c ≤ audio.length - i * c := by omega
  rw [Nat.min_eq_left hmin]

/-- Shifting a chunk index by one is chunking the buffer with its first
chunk removed. -/
theorem chunkPayload_succ {α : Type} (audio : List α) (c i : Nat) :
    chunkPayload audio c (i + 1) = chunkPayload (audio.drop c) c i := by
  unfold chunkPayload
  rw [List.drop_drop]
  congr 2
  ring

/-- One chunking step: with at least one full chunk of data, the chunk count
decomposes into the first chunk plus the chunks of the rest. -/
theorem totalChunks_succ_of_le (len c : Nat) (hc : 0 < c) (hle : c ≤ len) :
    totalChunks len c = totalChunks (len - c) c + 1 := by
  unfold totalChunks
  rw [Nat.div_eq_sub_div hc hle, Nat.mod_eq_sub_mod hle]
  split <;> omega

/-- Concatenating all chunk payloads, in order, gives back the buffer. -/
theorem chunks_flatten {α : Type} (c : Nat) (hc : 0 < c) :
    ∀ (n : Nat) (audio : List α), audio.length ≤ n →
      ((List.range (totalChunks audio.length c)).map (fun i => chunkPayload audio c i)).flatten =
        audio := by
  intro n
  induction n with
  | zero =>
      intro audio h
      have : audio = [] := List.eq_nil_of_length_eq_zero (by omega)
      subst this
      simp [totalChunks]
  | succ n ih =>
      intro audio h
      rcases Nat.lt_or_ge audio.length c with hlt | hge
      · rcases Nat.eq_zero_or_pos audio.length with h0 | hpos
        · have : audio = [] := List.eq_nil_of_length_eq_zero h0
          subst this
          simp [totalChunks]
        · have ht : totalChunks audio.length c = 1 := by
            unfold totalChunks
            rw [Nat.div_eq_of_lt hlt, Nat.mod_eq_of_lt hlt, if_pos (by omega)]
          rw [ht]
          rw [show List.range 1 = [0] from rfl]
          simp only [List.map_cons, List.map_nil, List.flatten_cons, List.flatten_nil,
            List.append_nil]
          unfold chunkPayload
          rw [Nat.zero_mul, List.drop_zero]
          exact List.take_of_length_le (Nat.le_of_lt hlt)
      · have ht := totalChunks_succ_of_le audio.length c hc hge
        rw [ht, List.range_succ_eq_map, List.map_cons, List.flatten_cons, List.map_map]
        have hhead : chunkPayload audio c 0 = audio.take c := by
          unfold chunkPayload
          rw [Nat.zero_mul, List.drop_zero]
        have htail :
            (fun i => chunkPayload audio c i) ∘ Nat.succ =
              fun i => chunkPayload (audio.drop c) c i := by
          funext i
          exact chunkPayload_succ audio c i
        have hrest : (audio.drop c).length = audio.length - c := List.length_drop c audio
        rw [hhead, htail]
        rw [show audio.length - c = (audio.drop c).length from hrest.symm]
        rw [ih (audio.drop c) (by rw [hrest]; omega)]
        exact List.take_append_drop c audio

/-- C10: a successful stream session over a buffer of L samples with chunk
size c = int(0.5 * sample_rate) emits exactly the ceiling of L / c chunk
messages; every chunk before the last carries exactly c samples, and the
concatenation of all chunk payloads, in sequence order, equals the original
buffer. -/
theorem stream_chunks_partition {α : Type} (audio : List α) (sample_rate : Nat)
    (hc : 0 < chunk_size sample_rate) :
    (chunkMsgs audio (chunk_size sample_rate)).length =
      (audio.length + chunk_size sample_rate - 1) / chunk_size sample_rate ∧
    (∀ i, i + 1 < totalChunks audio.length (chunk_size sample_rate) →
      (chunkPayload audio (chunk_size sample_rate) i).length = chunk_size sample_rate) ∧
    ((List.range (totalChunks audio.length (chunk_size sample_rate))).map
      (fun i => chunkPayload audio (chunk_size sample_rate) i)).flatten = audio := by
  refine ⟨?_, ?_, ?_⟩
  · rw [show (chunkMsgs audio (chunk_size sample_rate)).length =
      totalChunks audio.length (chunk_size sample_rate) by simp [chunkMsgs]]
    exact totalChunks_eq_ceil audio.length (chunk_size sample_rate) hc
  · intro i hi
    exact chunkPayload_middle_length audio (chunk_size sample_rate) i hc hi
  · exact chunks_flatten (chunk_size sample_rate) hc audio.length audio (Nat.le_refl _)

/-- Witness for the C10 theorem at sample rate 4 (chunk size 2) and the
concrete five-sample buffer [1, 2, 3, 4, 5]: three chunks, the first two of
exact size 2, whose concatenation restores the buffer. -/
theorem stream_chunks_partition_witness :
    0 < chunk_size 4 ∧
    (chunkMsgs ([1, 2, 3, 4, 5] : List Int) (chunk_size 4)).length = 3 ∧
    (chunkPayload ([1, 2, 3, 4, 5] : List Int) (chunk_size 4) 0).length = chunk_size 4 ∧
    ((List.range (totalChunks ([1, 2, 3, 4, 5] : List Int).length (chunk_size 4))).map
      (fun i => chunkPayload ([1, 2, 3, 4, 5] : List Int) (chunk_size 4) i)).flatten =
      [1, 2, 3, 4, 5] := by
  have h := stream_chunks_partition ([1, 2, 3, 4, 5] : List Int) 4 (by decide)
  refine ⟨by decide, ?_, ?_, h.2.2⟩
  · rw [h.1]
    decide
  · exact h.2.1 0 (by decide)

namespace Gate

/-- Updating a program counter reads back the written value. -/
theorem setPC_self (pc : Bool → PC) (j : Bool) (v : PC) : setPC pc j v j = v := by
  simp [setPC]

/-- Updating one program counter leaves the other unchanged. -/
theorem setPC_other (pc : Bool → PC) (j : Bool) (v : PC) (k : Bool) (h : k ≠ j) :
    setPC pc j v k = pc k := by
  simp [setPC, h]

/-- The log scanner distributes over concatenation. -/
theorem scanLog_append (es₁ es₂ : List Event) :
    ∀ st, scanLog st (es₁ ++ es₂) =
      (scanLog st es₁).bind (fun st2 => scanLog st2 es₂) := by
  induction es₁ with
  | nil =>
      intro st
      cases st <;> rfl
  | cons e es ih =>
      intro st
      cases e with
      | procStart j =>
          cases st with
          | none => simpa [scanLog] using ih (some j)
          | some a => rfl
      | terminal j =>
          cases st with
          | none => rfl
          | some a =>
              by_cases h : j = a
              · subst h
                simpa [scanLog] using ih none
              · simp [scanLog, h]

/-- While a processing section for job a is open, any later processing start
is preceded by the terminal event of a. -/
theorem scanLog_terminal_before (a b : Bool) (es : List Event) (m : Nat)
    (hwf : (scanLog (some a) es).isSome)
    (hm : es.get? m = some (Event.procStart b)) :
    ∃ k, k < m ∧ es.get? k = some (Event.terminal a) := by
  cases es with
  | nil => simp at hm
  | cons e es2 =>
      cases e with
      | procStart c => simp [scanLog] at hwf
      | terminal c =>
          by_cases hca : c = a
          · cases m with
            | zero => simp at hm
            | succ m2 =>
                subst hca
                exact ⟨0, Nat.succ_pos m2, rfl⟩
          · simp [scanLog, hca] at hwf

/-- In a well-formed log, two processing starts are separated by the terminal
event of the earlier one. -/
theorem scanLog_between (es : List Event) :
    ∀ (st : Option Bool) (i j : Nat) (a b : Bool),
      (scanLog st es).isSome → i < j →
      es.get? i = some (Event.procStart a) → es.get? j = some (Event.procStart b) →
      ∃ k, i < k ∧ k < j ∧ es.get? k = some (Event.terminal a) := by
  induction es with
  | nil =>
      intro st i j a b hwf hij hi hj
      simp at hi
  | cons e es2 ih =>
      intro st i j a b hwf hij hi hj
      cases i with
      | zero =>
          have he : e = Event.procStart a := by simpa using hi
          subst he
          cases st with
          | some x => simp [scanLog] at hwf
          | none =>
              simp only [scanLog] at hwf
              cases j with
              | zero => omega
              | succ j2 =>
                  have hj2 : es2.get? j2 = some (Event.procStart b) := by simpa using hj
                  obtain ⟨k, hk, hterm⟩ := scanLog_terminal_before a b es2 j2 hwf hj2
                  exact ⟨k + 1, Nat.succ_pos k, Nat.succ_lt_succ hk, by simpa using hterm⟩
      | succ i2 =>
          cases j with
          | zero => omega
          | succ j2 =>
              have hi2 : es2.get? i2 = some (Event.procStart a) := by simpa using hi
              have hj2 : es2.get? j2 = some (Event.procStart b) := by simpa using hj
              have hwf2 : ∃ st2, (scanLog st2 es2).isSome := by
                cases e with
                | procStart c =>
                    cases st with
                    | none => exact ⟨some c, by simpa [scanLog] using hwf⟩
                    | some x => simp [scanLog] at hwf
                | terminal c =>
                    cases st with
                    | none => simp [scanLog] at hwf
                    | some x =>
                        by_cases hcx : c = x
                        · exact ⟨none, by simpa [scanLog, hcx] using hwf⟩
                        · simp [scanLog, hcx] at hwf
              obtain ⟨st2, hwf2⟩ := hwf2
              obtain ⟨k, hk1, hk2, hterm⟩ := ih st2 i2 j2 a b hwf2 (by omega) hi2 hj2
              exact ⟨k + 1, Nat.succ_lt_succ hk1, Nat.succ_lt_succ hk2, by simpa using hterm⟩

/-- The invariant holds in the initial state. -/
theorem inv_gateInit : Inv gateInit := by
  refine ⟨rfl, rfl, ?_, List.nodup_nil⟩
  intro j hj
  simp [gateInit] at hj

/-- With capacity one, a holder of the gate excludes the other job and
exhausts the permit. -/
theorem holder_unique (s : SysState) (hcount : holderCount s + s.permits = 1)
    (j : Bool) (hj : holdsGate s j = true) :
    holdsGate s (!j) = false ∧ s.permits = 0 := by
  unfold holderCount at hcount
  cases hf : holdsGate s false <;> cases htr : holdsGate s true <;>
    cases j <;> simp_all <;> omega

theorem inv_step {s t : SysState} (hinv : Inv s) (hstep : Step s t) : Inv t := by
  obtain ⟨hcount, hscan, hwait, hnodup⟩ := hinv
  cases hstep with
  | acquireFree j hpc hperm hq =>
      refine ⟨?_, ?_, ?_, ?_⟩
      · cases j with
        | false =>
            simp only [holderCount, holdsGate, setPC, hpc] at hcount ⊢
            simp at hcount ⊢
            split_ifs at hcount ⊢ <;> omega
        | true =>
            simp only [holderCount, holdsGate, setPC, hpc] at hcount ⊢
            simp at hcount ⊢
            split_ifs at hcount ⊢ <;> omega
      · convert hscan using 2
        cases j with
        | false => simp [openSection, setPC, hpc]
        | true => simp [openSection, setPC, hpc]
      · intro k hk
        have hkw := hwait k hk
        have hkj : k ≠ j := by
          intro he
          subst he
          rw [hpc] at hkw
          simp at hkw
        show setPC s.pc j PC.toSetProcessing k = PC.waiting
        rw [setPC_other _ _ _ _ hkj]
        exact hkw
      · exact hnodup
  | acquireBlock j hpc hblock =>
      have hjq : j ∉ s.queue := by
        intro hmem
        have hmw := hwait j hmem
        rw [hpc] at hmw
        simp at hmw
      refine ⟨?_, ?_, ?_, ?_⟩
      · cases j with
        | false =>
            simp only [holderCount, holdsGate, setPC, hpc] at hcount ⊢
            simp at hcount ⊢
            split_ifs at hcount ⊢ <;> omega
        | true =>
            simp only [holderCount, holdsGate, setPC, hpc] at hcount ⊢
            simp at hcount ⊢
            split_ifs at hcount ⊢ <;> omega
      · convert hscan using 2
        cases j with
        | false => simp [openSection, setPC, hpc]
        | true => simp [openSection, setPC, hpc]
      · intro k hk
        have hk2 : k ∈ s.queue ++ [j] := hk
        simp only [List.mem_append, List.mem_singleton] at hk2
        show setPC s.pc j PC.waiting k = PC.waiting
        rcases hk2 with hk2 | hk2
        · have hkw := hwait k hk2
          have hkj : k ≠ j := by
            intro he
            subst he
            rw [hpc] at hkw
            simp at hkw
          rw [setPC_other _ _ _ _ hkj]
          exact hkw
        · subst hk2
          exact setPC_self _ _ _
      · show (s.queue ++ [j]).Nodup
        rw [List.nodup_append]
        refine ⟨hnodup, List.nodup_singleton j, ?_⟩
        intro x hx hx2
        simp at hx2
        subst hx2
        exact hjq hx
  | setProcessingStep j hpc =>
      have hj : holdsGate s j = true := by simp [holdsGate, hpc]
      have hu := holder_unique s hcount j hj
      have hoth : s.pc (!j) ≠ PC.toSetTerminal := by
        intro hT
        have h1 := hu.1
        rw [holdsGate, hT] at h1
        simp at h1
      refine ⟨?_, ?_, ?_, ?_⟩
      · cases j with
        | false =>
            simp only [holderCount, holdsGate, setPC, hpc] at hcount ⊢
            simp at hcount ⊢
            split_ifs at hcount ⊢ <;> omega
        | true =>
            simp only [holderCount, holdsGate, setPC, hpc] at hcount ⊢
            simp at hcount ⊢
            split_ifs at hcount ⊢ <;> omega
      · have hopen : openSection s = none := by
          cases j with
          | false =>
              have h2 : s.pc true ≠ PC.toSetTerminal := hoth
              simp [openSection, hpc, h2]
          | true =>
              have h2 : s.pc false ≠ PC.toSetTerminal := hoth
              simp [openSection, hpc, h2]
        have hlog : scanLog none (s.log ++ [Event.procStart j]) = some (some j) := by
          rw [scanLog_append, hscan, hopen]
          rfl
        convert hlog using 2
        cases j with
        | false => simp [openSection, setPC]
        | true =>
            have h2 : s.pc false ≠ PC.toSetTerminal := hoth
            simp [openSection, setPC, h2]
      · intro k hk
        have hkw := hwait k hk
        have hkj : k ≠ j := by
          intro he
          subst he
          rw [hpc] at hkw
          simp at hkw
        show setPC s.pc j PC.toSetTerminal k = PC.waiting
        rw [setPC_other _ _ _ _ hkj]
        exact hkw
      · exact hnodup
  | setTerminalStep j hpc =>
      have hj : holdsGate s j = true := by simp [holdsGate, hpc]
      have hu := holder_unique s hcount j hj
      have hoth : s.pc (!j) ≠ PC.toSetTerminal := by
        intro hT
        have h1 := hu.1
        rw [holdsGate, hT] at h1
        simp at h1
      refine ⟨?_, ?_, ?_, ?_⟩
      · cases j with
        | false =>
            simp only [holderCount, holdsGate, setPC, hpc] at hcount ⊢
            simp at hcount ⊢
            split_ifs at hcount ⊢ <;> omega
        | true =>
            simp only [holderCount, holdsGate, setPC, hpc] at hcount ⊢
            simp at hcount ⊢
            split_ifs at hcount ⊢ <;> omega
      · have hopen : openSection s = some j := by
          cases j with
          | false => simp [openSection, hpc]
          | true =>
              have h2 : s.pc false ≠ PC.toSetTerminal := hoth
              simp [openSection, hpc, h2]
        have hlog : scanLog none (s.log ++ [Event.terminal j]) = some none := by
          rw [scanLog_append, hscan, hopen]
          simp [scanLog]
        convert hlog using 2
        cases j with
        | false =>
            have h2 : s.pc true ≠ PC.toSetTerminal := hoth
            simp [openSection, setPC, h2]
        | true =>
            have h2 : s.pc false ≠ PC.toSetTerminal := hoth
            simp [openSection, setPC, h2]
      · intro k hk
        have hkw := hwait k hk
        have hkj : k ≠ j := by
          intro he
          subst he
          rw [hpc] at hkw
          simp at hkw
        show setPC s.pc j PC.toRelease k = PC.waiting
        rw [setPC_other _ _ _ _ hkj]
        exact hkw
      · exact hnodup
  | releaseNoWaiter j hpc hq =>
      refine ⟨?_, ?_, ?_, ?_⟩
      · cases j with
        | false =>
            simp only [holderCount, holdsGate, setPC, hpc] at hcount ⊢
            simp at hcount ⊢
            split_ifs at hcount ⊢ <;> omega
        | true =>
            simp only [holderCount, holdsGate, setPC, hpc] at hcount ⊢
            simp at hcount ⊢
            split_ifs at hcount ⊢ <;> omega
      · convert hscan using 2
        cases j with
        | false => simp [openSection, setPC, hpc]
        | true => simp [openSection, setPC, hpc]
      · intro k hk
        have hk2 : k ∈ s.queue := hk
        rw [hq] at hk2
        simp at hk2
      · exact hnodup
  | releaseWake j w rest hpc hq =>
      have hwq : s.pc w = PC.waiting := hwait w (by rw [hq]; exact List.mem_cons_self w rest)
      have hwj : w ≠ j := by
        intro he
        rw [he, hpc] at hwq
        simp at hwq
      have hnd : (w :: rest).Nodup := hq ▸ hnodup
      have hwrest : w ∉ rest := (List.nodup_cons.mp hnd).1
      refine ⟨?_, ?_, ?_, ?_⟩
      · cases j with
        | false =>
            have hw2 : w = true := by
              cases w
              · exact absurd rfl hwj
              · rfl
            subst hw2
            simp only [holderCount, holdsGate, setPC, hpc, hwq] at hcount ⊢
            simp at hcount ⊢
            omega
        | true =>
            have hw2 : w = false := by
              cases w
              · rfl
              · exact absurd rfl hwj
            subst hw2
            simp only [holderCount, holdsGate, setPC, hpc, hwq] at hcount ⊢
            simp at hcount ⊢
            omega
      · convert hscan using 2
        cases j with
        | false =>
            have hw2 : w = true := by
              cases w
              · exact absurd rfl hwj
              · rfl
            subst hw2
            simp [openSection, setPC, hpc, hwq]
        | true =>
            have hw2 : w = false := by
              cases w
              · rfl
              · exact absurd rfl hwj
            subst hw2
            simp [openSection, setPC, hpc, hwq]
      · intro k hk
        have hkrest : k ∈ rest := hk
        have hkq : k ∈ s.queue := by
          rw [hq]
          exact List.mem_cons_of_mem w hkrest
        have hkw := hwait k hkq
        have hkj : k ≠ j := by
          intro he
          subst he
          rw [hpc] at hkw
          simp at hkw
        have hkwne : k ≠ w := by
          intro he
          subst he
          exact hwrest hkrest
        show setPC (setPC s.pc j PC.finished) w PC.toSetProcessing k = PC.waiting
        rw [setPC_other _ _ _ _ hkwne, setPC_other _ _ _ _ hkj]
        exact hkw
      · exact (List.nodup_cons.mp hnd).2

theorem inv_reachable (s : SysState) (hs : Reachable s) : Inv s := by
  induction hs with
  | refl => exact inv_gateInit
  | tail _ hstep ih => exact inv_step ih hstep

/-- C9: with the gate configured to capacity one and two jobs submitted
back-to-back, in every reachable state of the system any two processing-start
events in the log are separated by the terminal event of the earlier job: the
second job does not enter Processing until the first job has reached a
terminal status, so its observed Processing start time is at or after the
first job terminal time.  Admission is FIFO by construction of the model: a
release hands the permit to the head of the semaphore waiter queue, as
asyncio.Semaphore does. -/
theorem second_processing_start_after_first_terminal (s : SysState) (hs : Reachable s)
    (i j : Nat) (a b : Bool) (hij : i < j)
    (hi : s.log.get? i = some (Event.procStart a))
    (hj : s.log.get? j = some (Event.procStart b)) :
    ∃ k, i < k ∧ k < j ∧ s.log.get? k = some (Event.terminal a) := by
  have hinv := inv_reachable s hs
  refine scanLog_between s.log none i j a b ?_ hij hi hj
  rw [hinv.scan]
  rfl

/-- Witness for the C9 theorem on a concrete full execution of both jobs:
job one acquires, job two queues, job one processes and terminates, the
release wakes job two, which processes and terminates; in the resulting log
the terminal event of job one sits strictly between the two processing
starts. -/
theorem second_processing_start_after_first_terminal_witness :
    ∃ k, 0 < k ∧ k < 2 ∧
      ([Event.procStart false, Event.terminal false, Event.procStart true,
        Event.terminal true].get? k = some (Event.terminal false)) := by
  have h0 : Reachable gateInit := Relation.ReflTransGen.refl
  have h1 := Relation.ReflTransGen.tail h0
    (Step.acquireFree gateInit false rfl (by decide) rfl)
  have h2 := Relation.ReflTransGen.tail h1
    (Step.acquireBlock _ true rfl (Or.inl rfl))
  have h3 := Relation.ReflTransGen.tail h2
    (Step.setProcessingStep _ false rfl)
  have h4 := Relation.ReflTransGen.tail h3
    (Step.setTerminalStep _ false rfl)
  have h5 := Relation.ReflTransGen.tail h4
    (Step.releaseWake _ false true [] rfl rfl)
  have h6 := Relation.ReflTransGen.tail h5
    (Step.setProcessingStep _ true rfl)
  have h7 := Relation.ReflTransGen.tail h6
    (Step.setTerminalStep _ true rfl)
  exact second_processing_start_after_first_terminal _ h7 0 2 false true (by decide) rfl rfl


end Gate

end LbrxVoice
